import Mathlib

/-!
Shallow embedding of the auth/session core of the `store-serverless`
repository: the refresh-token ledger, the login-attempt tracker, the
per-IP login rate limiter, the access-token issuer/verifier, the
single-user credential store, and the login orchestration in the auth
service. Timestamps and durations are modelled as integers (seconds);
Go's `time.Before`/`time.After` are the strict orders `<`/`>` on them.
Database relations are modelled as lists of rows; a transaction is a
pure function returning the result together with the post-state, where
every failing path returns the unchanged pre-state (rollback).
-/

/-- SHA-256 hex digest of a raw token (`sha256.Sum256` followed by
`hex.EncodeToString` in `internal/auth/repository.go`), modelled as an
injective symbolic digest. -/
def sha256Hex (s : String) : String := "sha256:" ++ s

/-- bcrypt password hash (`bcrypt.GenerateFromPassword`), modelled as an
injective symbolic digest. -/
def bcryptHash (s : String) : String := "bcrypt:" ++ s

/-- `bcrypt.CompareHashAndPassword` succeeds exactly when the stored hash
is the digest of the presented password. -/
def bcryptCheck (storedHash password : String) : Bool :=
  storedHash == bcryptHash password

/-- Errors surfaced by the ledger operations: `ErrInvalidRefreshToken`
from `repository.go`, and the rolled-back generic persistence error a
violated UNIQUE/PRIMARY KEY constraint would produce. -/
inductive LedgerError where
  | invalidRefreshToken
  | uniqueViolation
deriving DecidableEq, Repr

/-- One row of the `auth_refresh_tokens` relation
(migration `0008_create_auth_refresh_tokens.sql`). -/
structure RefreshTokenRow where
  id : String
  userId : String
  tokenHash : String
  expiresAt : Int
  revokedAt : Option Int
  replacedBy : Option String
  createdAt : Int
deriving DecidableEq, Repr

/-- The `auth_refresh_tokens` relation. -/
abbrev Ledger := List RefreshTokenRow

/-- `SELECT ... FROM auth_refresh_tokens WHERE token_hash = $1`. -/
def findByTokenHash (l : Ledger) (tokenHash : String) : Option RefreshTokenRow :=
  l.find? (fun r => r.tokenHash == tokenHash)

/-- `Repository.CreateRefreshToken`: hash the raw token and insert a new
row; a duplicate `token_hash` (UNIQUE) or `id` (PRIMARY KEY) makes the
insert fail with the state unchanged. -/
def CreateRefreshToken (l : Ledger) (userID rawToken : String) (expiresAt : Int)
    (newID : String) (now : Int) : Except LedgerError Unit × Ledger :=
  if l.any (fun r => r.tokenHash == sha256Hex rawToken || r.id == newID) then
    (Except.error LedgerError.uniqueViolation, l)
  else
    (Except.ok (),
      { id := newID, userId := userID, tokenHash := sha256Hex rawToken,
        expiresAt := expiresAt, revokedAt := none, replacedBy := none,
        createdAt := now } :: l)

/-- Row-level effect of the `UPDATE auth_refresh_tokens SET revoked_at = $2,
replaced_by = $3 WHERE id = $1` statement inside `RotateRefreshToken`. -/
def rotateUpdateRow (oldID newID : String) (now : Int) (r : RefreshTokenRow) : RefreshTokenRow :=
  if r.id == oldID then { r with revokedAt := some now, replacedBy := some newID } else r

/-- `Repository.RotateRefreshToken`: in one transaction, look up the old
token by hash (`InvalidRefreshToken` if absent), reject it if revoked or
if `now` is strictly after its expiry, insert the new token row for the
same user, and mark the old row revoked with `replaced_by` pointing at
the new row; on any failure the transaction rolls back and the ledger is
returned unchanged. -/
def RotateRefreshToken (l : Ledger) (rawOldToken rawNewToken : String)
    (newExpiresAt : Int) (newID : String) (now : Int) : Except LedgerError String × Ledger :=
  match findByTokenHash l (sha256Hex rawOldToken) with
  | none => (Except.error LedgerError.invalidRefreshToken, l)
  | some oldRow =>
      if oldRow.revokedAt.isSome ∨ oldRow.expiresAt < now then
        (Except.error LedgerError.invalidRefreshToken, l)
      else if l.any (fun r => r.tokenHash == sha256Hex rawNewToken || r.id == newID) then
        (Except.error LedgerError.uniqueViolation, l)
      else
        (Except.ok oldRow.userId,
          { id := newID, userId := oldRow.userId, tokenHash := sha256Hex rawNewToken,
            expiresAt := newExpiresAt, revokedAt := none, replacedBy := none,
            createdAt := now } :: l.map (rotateUpdateRow oldRow.id newID now))

/-- Row-level effect of `Repository.RevokeRefreshToken`:
`SET revoked_at = COALESCE(revoked_at, now)`. -/
def revokeRow (now : Int) (r : RefreshTokenRow) : RefreshTokenRow :=
  { r with revokedAt := some (r.revokedAt.getD now) }

/-- `Repository.RevokeRefreshToken`: set `revoked_at` to `now` on every
row matching the token hash, keeping an already-set `revoked_at`. -/
def RevokeRefreshToken (l : Ledger) (rawToken : String) (now : Int) : Ledger :=
  l.map (fun r => if r.tokenHash == sha256Hex rawToken then revokeRow now r else r)

/-- One application of an operation of the ledger contract
(`create` / `rotate` / `revoke`, spec section 4.3) to the
`auth_refresh_tokens` state. -/
inductive LedgerStep : Ledger → Ledger → Prop where
  | create (l : Ledger) (userID rawToken : String) (expiresAt : Int)
      (newID : String) (now : Int) :
      LedgerStep l (CreateRefreshToken l userID rawToken expiresAt newID now).2
  | rotate (l : Ledger) (rawOldToken rawNewToken : String) (newExpiresAt : Int)
      (newID : String) (now : Int) :
      LedgerStep l (RotateRefreshToken l rawOldToken rawNewToken newExpiresAt newID now).2
  | revoke (l : Ledger) (rawToken : String) (now : Int) :
      LedgerStep l (RevokeRefreshToken l rawToken now)

/-- Any number of ledger-contract operations. -/
abbrev LedgerReachable : Ledger → Ledger → Prop := Relation.ReflTransGen LedgerStep

/-- The first ledger row carrying this token hash exists and is revoked. -/
def HashRevoked (l : Ledger) (tokenHash : String) : Prop :=
  ∃ r, findByTokenHash l tokenHash = some r ∧ r.revokedAt.isSome

example :
    (RotateRefreshToken
      [{ id := "t1", userId := "u1", tokenHash := sha256Hex "old", expiresAt := 100,
         revokedAt := none, replacedBy := none, createdAt := 0 }]
      "old" "new" 200 "t2" 10).1 = Except.ok "u1" := by rfl

example :
    (RotateRefreshToken
      [{ id := "t1", userId := "u1", tokenHash := sha256Hex "old", expiresAt := 100,
         revokedAt := some 5, replacedBy := none, createdAt := 0 }]
      "old" "new" 200 "t2" 10).1 = Except.error LedgerError.invalidRefreshToken := by rfl

example :
    (RotateRefreshToken
      [{ id := "t1", userId := "u1", tokenHash := sha256Hex "old", expiresAt := 0,
         revokedAt := none, replacedBy := none, createdAt := 0 }]
      "old" "new" 100 "t2" 0).1 = Except.ok "u1" := by rfl

theorem findByTokenHash_map (f : RefreshTokenRow → RefreshTokenRow)
    (hf : ∀ r, (f r).tokenHash = r.tokenHash) (l : Ledger) (th : String) :
    findByTokenHash (l.map f) th = (findByTokenHash l th).map f := by
  induction l with
  | nil => rfl
  | cons r rest ih =>
      cases hcase : r.tokenHash == th
      · simpa [findByTokenHash, List.find?_cons, hf r, hcase] using ih
      · simp [findByTokenHash, List.find?_cons, hf r, hcase]

theorem rotateUpdateRow_tokenHash (oldID newID : String) (now : Int) (r : RefreshTokenRow) :
    (rotateUpdateRow oldID newID now r).tokenHash = r.tokenHash := by
  unfold rotateUpdateRow
  by_cases hid : (r.id == oldID) = true <;> simp [hid]

theorem rotateUpdateRow_revoked (oldID newID : String) (now : Int) (r : RefreshTokenRow)
    (h : r.revokedAt.isSome) : (rotateUpdateRow oldID newID now r).revokedAt.isSome := by
  unfold rotateUpdateRow
  by_cases hid : (r.id == oldID) = true <;> simp [hid, h]

theorem hashRevoked_mem_ne (l : Ledger) (th other : String) (h : HashRevoked l th)
    (hany : l.any (fun r => r.tokenHash == other) = false) : other ≠ th := by
  obtain ⟨r, hfind, _⟩ := h
  unfold findByTokenHash at hfind
  have hmem : r ∈ l := List.mem_of_find?_eq_some hfind
  have hth := List.find?_some hfind
  intro he
  subst he
  have hnot := List.any_eq_false.mp hany r hmem
  simp only [beq_iff_eq] at hnot hth
  exact hnot hth

theorem hashRevoked_create (l : Ledger) (userID rawToken : String) (expiresAt : Int)
    (newID : String) (now : Int) (th : String) (h : HashRevoked l th) :
    HashRevoked (CreateRefreshToken l userID rawToken expiresAt newID now).2 th := by
  by_cases hany : l.any (fun r => r.tokenHash == sha256Hex rawToken || r.id == newID) = true
  · simpa [CreateRefreshToken, hany] using h
  · simp only [Bool.not_eq_true] at hany
    have hany2 : l.any (fun r => r.tokenHash == sha256Hex rawToken) = false := by
      refine List.any_eq_false.mpr (fun r hr => ?_)
      have := List.any_eq_false.mp hany r hr
      simp only [Bool.or_eq_true, not_or] at this
      simpa using this.1
    have hne := hashRevoked_mem_ne l th (sha256Hex rawToken) h hany2
    obtain ⟨r, hfind, hrev⟩ := h
    refine ⟨r, ?_, hrev⟩
    simp only [CreateRefreshToken, hany, Bool.false_eq_true, if_false]
    unfold findByTokenHash at hfind ⊢
    rw [List.find?_cons_of_neg]
    · exact hfind
    · simp [hne]

theorem hashRevoked_revoke (l : Ledger) (rawToken : String) (now : Int) (th : String)
    (h : HashRevoked l th) : HashRevoked (RevokeRefreshToken l rawToken now) th := by
  obtain ⟨r, hfind, hrev⟩ := h
  have hpres : ∀ s : RefreshTokenRow,
      (if s.tokenHash == sha256Hex rawToken then revokeRow now s else s).tokenHash
        = s.tokenHash := by
    intro s
    by_cases hc : (s.tokenHash == sha256Hex rawToken) = true <;> simp [hc, revokeRow]
  have hmap := findByTokenHash_map
    (fun s => if s.tokenHash == sha256Hex rawToken then revokeRow now s else s) hpres l th
  refine ⟨if r.tokenHash == sha256Hex rawToken then revokeRow now r else r, ?_, ?_⟩
  · show findByTokenHash (RevokeRefreshToken l rawToken now) th = some _
    unfold RevokeRefreshToken
    rw [hmap, hfind]
    rfl
  · by_cases hc : (r.tokenHash == sha256Hex rawToken) = true <;>
      simp [hc, revokeRow, hrev]

theorem hashRevoked_rotate (l : Ledger) (rawOldToken rawNewToken : String)
    (newExpiresAt : Int) (newID : String) (now : Int) (th : String) (h : HashRevoked l th) :
    HashRevoked (RotateRefreshToken l rawOldToken rawNewToken newExpiresAt newID now).2 th := by
  cases hfindOld : findByTokenHash l (sha256Hex rawOldToken) with
  | none => simpa [RotateRefreshToken, hfindOld] using h
  | some oldRow =>
    by_cases hbad : oldRow.revokedAt.isSome ∨ oldRow.expiresAt < now
    · simpa [RotateRefreshToken, hfindOld, hbad] using h
    · by_cases hany :
        l.any (fun r => r.tokenHash == sha256Hex rawNewToken || r.id == newID) = true
      · simpa [RotateRefreshToken, hfindOld, hbad, hany] using h
      · simp only [Bool.not_eq_true] at hany
        have hany2 : l.any (fun r => r.tokenHash == sha256Hex rawNewToken) = false := by
          refine List.any_eq_false.mpr (fun r hr => ?_)
          have := List.any_eq_false.mp hany r hr
          simp only [Bool.or_eq_true, not_or] at this
          simpa using this.1
        have hne := hashRevoked_mem_ne l th (sha256Hex rawNewToken) h hany2
        obtain ⟨r, hfind, hrev⟩ := h
        refine ⟨rotateUpdateRow oldRow.id newID now r, ?_,
          rotateUpdateRow_revoked _ _ _ _ hrev⟩
        simp only [RotateRefreshToken, hfindOld, hbad, hany, Bool.false_eq_true,
          if_false, if_neg]
        unfold findByTokenHash at hfind ⊢
        rw [List.find?_cons_of_neg]
        · have hmap := findByTokenHash_map (rotateUpdateRow oldRow.id newID now)
            (rotateUpdateRow_tokenHash oldRow.id newID now) l th
          unfold findByTokenHash at hmap
          rw [hmap, hfind]
          rfl
        · simp [hne]

theorem hashRevoked_step (l1 l2 : Ledger) (th : String) (hstep : LedgerStep l1 l2)
    (h : HashRevoked l1 th) : HashRevoked l2 th := by
  cases hstep with
  | create userID rawToken expiresAt newID now =>
      exact hashRevoked_create l1 userID rawToken expiresAt newID now th h
  | rotate rawOldToken rawNewToken newExpiresAt newID now =>
      exact hashRevoked_rotate l1 rawOldToken rawNewToken newExpiresAt newID now th h
  | revoke rawToken now =>
      exact hashRevoked_revoke l1 rawToken now th h

theorem hashRevoked_reachable (l1 l2 : Ledger) (th : String)
    (hreach : LedgerReachable l1 l2) (h : HashRevoked l1 th) : HashRevoked l2 th := by
  induction hreach with
  | refl => exact h
  | tail _ hstep ih => exact hashRevoked_step _ _ _ hstep ih

theorem rotate_error_of_hashRevoked (l : Ledger) (rawOldToken rawNewToken : String)
    (newExpiresAt : Int) (newID : String) (now : Int)
    (h : HashRevoked l (sha256Hex rawOldToken)) :
    (RotateRefreshToken l rawOldToken rawNewToken newExpiresAt newID now).1
      = Except.error LedgerError.invalidRefreshToken := by
  obtain ⟨r, hfind, hrev⟩ := h
  unfold RotateRefreshToken
  rw [hfind]
  simp [hrev]

theorem RotateRefreshToken_ok (l : Ledger) (rawOldToken rawNewToken : String)
    (newExpiresAt : Int) (newID : String) (now : Int) (uid : String) (l2 : Ledger)
    (hok : RotateRefreshToken l rawOldToken rawNewToken newExpiresAt newID now
      = (Except.ok uid, l2)) :
    ∃ oldRow, findByTokenHash l (sha256Hex rawOldToken) = some oldRow ∧
      oldRow.revokedAt = none ∧ now ≤ oldRow.expiresAt ∧
      l.any (fun r => r.tokenHash == sha256Hex rawNewToken || r.id == newID) = false ∧
      uid = oldRow.userId ∧
      l2 = { id := newID, userId := oldRow.userId, tokenHash := sha256Hex rawNewToken,
             expiresAt := newExpiresAt, revokedAt := none, replacedBy := none,
             createdAt := now } :: l.map (rotateUpdateRow oldRow.id newID now) := by
  unfold RotateRefreshToken at hok
  cases hfind : findByTokenHash l (sha256Hex rawOldToken) with
  | none =>
      rw [hfind] at hok
      simp at hok
  | some oldRow =>
      rw [hfind] at hok
      dsimp only at hok
      by_cases hbad : oldRow.revokedAt.isSome ∨ oldRow.expiresAt < now
      · simp [hbad] at hok
      · by_cases hany :
          l.any (fun r => r.tokenHash == sha256Hex rawNewToken || r.id == newID) = true
        · rw [if_neg hbad, if_pos hany] at hok
          simp at hok
        · rw [if_neg hbad, if_neg hany] at hok
          rw [Prod.mk.injEq] at hok
          obtain ⟨h1, h2⟩ := hok
          rw [not_or] at hbad
          obtain ⟨hrev, hexp⟩ := hbad
          refine ⟨oldRow, rfl, ?_, ?_, ?_, ?_, ?_⟩
          · exact Option.not_isSome_iff_eq_none.mp hrev
          · exact not_lt.mp hexp
          · simpa using hany
          · simpa using h1.symm
          · exact h2.symm

theorem rotate_ok_shape (l : Ledger) (rawOldToken rawNewToken : String)
    (newExpiresAt : Int) (newID : String) (now : Int) (uid : String) (l2 : Ledger)
    (hok : RotateRefreshToken l rawOldToken rawNewToken newExpiresAt newID now
      = (Except.ok uid, l2)) :
    (∃ rNew, findByTokenHash l2 (sha256Hex rawNewToken) = some rNew ∧
      rNew.id = newID ∧ rNew.userId = uid ∧ rNew.expiresAt = newExpiresAt ∧
      rNew.revokedAt = none) ∧
    (∃ rOld, findByTokenHash l2 (sha256Hex rawOldToken) = some rOld ∧
      rOld.revokedAt = some now ∧ rOld.replacedBy = some newID) := by
  obtain ⟨oldRow, hfind, hrevN, hexp, hany, huid, hl2⟩ :=
    RotateRefreshToken_ok l rawOldToken rawNewToken newExpiresAt newID now uid l2 hok
  have hmem : oldRow ∈ l := by
    unfold findByTokenHash at hfind
    exact List.mem_of_find?_eq_some hfind
  have hth : oldRow.tokenHash = sha256Hex rawOldToken := by
    unfold findByTokenHash at hfind
    have := List.find?_some hfind
    simpa using this
  have hnoNew : ∀ r ∈ l, r.tokenHash ≠ sha256Hex rawNewToken := by
    intro r hr
    have := List.any_eq_false.mp hany r hr
    simp only [Bool.or_eq_true, not_or] at this
    simpa using this.1
  have hne : sha256Hex rawNewToken ≠ sha256Hex rawOldToken := fun he =>
    hnoNew oldRow hmem (hth.trans he.symm)
  subst hl2
  constructor
  · refine ⟨{ id := newID, userId := oldRow.userId, tokenHash := sha256Hex rawNewToken,
               expiresAt := newExpiresAt, revokedAt := none, replacedBy := none,
               createdAt := now }, ?_, rfl, huid.symm, rfl, rfl⟩
    unfold findByTokenHash
    rw [List.find?_cons_of_pos]
    simp
  · refine ⟨rotateUpdateRow oldRow.id newID now oldRow, ?_, ?_, ?_⟩
    · unfold findByTokenHash
      rw [List.find?_cons_of_neg]
      · have hmap := findByTokenHash_map (rotateUpdateRow oldRow.id newID now)
          (rotateUpdateRow_tokenHash oldRow.id newID now) l (sha256Hex rawOldToken)
        unfold findByTokenHash at hmap hfind
        rw [hmap, hfind]
        rfl
      · simp [hne]
    · simp [rotateUpdateRow]
    · simp [rotateUpdateRow]

/-- **C1**: once `RotateRefreshToken` commits on an old token, the committed
state carries the new token row and the old row revoked with `replaced_by`
pointing at the new row's id (both mutations of the single transaction), and
presenting the old raw token to any later rotate call - after any further
sequence of ledger-contract operations (`create`/`rotate`/`revoke`) - fails
with `InvalidRefreshToken`, so the old token is never usable again. -/
theorem c1_rotate_old_token_never_reusable (l : Ledger)
    (rawOldToken rawNewToken : String) (newExpiresAt : Int) (newID : String)
    (now : Int) (uid : String) (l2 : Ledger)
    (hok : RotateRefreshToken l rawOldToken rawNewToken newExpiresAt newID now
      = (Except.ok uid, l2)) :
    (∃ rNew, findByTokenHash l2 (sha256Hex rawNewToken) = some rNew ∧
      rNew.id = newID ∧ rNew.userId = uid ∧ rNew.expiresAt = newExpiresAt ∧
      rNew.revokedAt = none) ∧
    (∃ rOld, findByTokenHash l2 (sha256Hex rawOldToken) = some rOld ∧
      rOld.revokedAt = some now ∧ rOld.replacedBy = some newID) ∧
    (∀ lLater, LedgerReachable l2 lLater →
      ∀ rawNewToken2 newExpiresAt2 newID2 now2,
        (RotateRefreshToken lLater rawOldToken rawNewToken2 newExpiresAt2
          newID2 now2).1 = Except.error LedgerError.invalidRefreshToken) := by
  have hshape := rotate_ok_shape l rawOldToken rawNewToken newExpiresAt newID now uid l2 hok
  refine ⟨hshape.1, hshape.2, ?_⟩
  intro lLater hreach rawNewToken2 newExpiresAt2 newID2 now2
  have hrevoked : HashRevoked l2 (sha256Hex rawOldToken) := by
    obtain ⟨rOld, hfind2, hrev2, _⟩ := hshape.2
    exact ⟨rOld, hfind2, by simp [hrev2]⟩
  exact rotate_error_of_hashRevoked lLater rawOldToken rawNewToken2 newExpiresAt2
    newID2 now2 (hashRevoked_reachable l2 lLater (sha256Hex rawOldToken) hreach hrevoked)

/-- Witness for C1: a concrete successful rotation, then a replay of the old
token against the committed ledger is rejected. -/
theorem c1_rotate_old_token_never_reusable_witness :
    (RotateRefreshToken
      [{ id := "t1", userId := "u1", tokenHash := sha256Hex "old", expiresAt := 100,
         revokedAt := none, replacedBy := none, createdAt := 0 }]
      "old" "new" 200 "t2" 10
      = (Except.ok "u1",
         [{ id := "t2", userId := "u1", tokenHash := sha256Hex "new", expiresAt := 200,
            revokedAt := none, replacedBy := none, createdAt := 10 },
          { id := "t1", userId := "u1", tokenHash := sha256Hex "old", expiresAt := 100,
            revokedAt := some 10, replacedBy := some "t2", createdAt := 0 }])) ∧
    (RotateRefreshToken
      [{ id := "t2", userId := "u1", tokenHash := sha256Hex "new", expiresAt := 200,
         revokedAt := none, replacedBy := none, createdAt := 10 },
       { id := "t1", userId := "u1", tokenHash := sha256Hex "old", expiresAt := 100,
         revokedAt := some 10, replacedBy := some "t2", createdAt := 0 }]
      "old" "x" 300 "t3" 20).1 = Except.error LedgerError.invalidRefreshToken := by
  refine ⟨by rfl, ?_⟩
  exact (c1_rotate_old_token_never_reusable
    [{ id := "t1", userId := "u1", tokenHash := sha256Hex "old", expiresAt := 100,
       revokedAt := none, replacedBy := none, createdAt := 0 }]
    "old" "new" 200 "t2" 10 "u1" _ (by rfl)).2.2 _ Relation.ReflTransGen.refl
    "x" 300 "t3" 20

/-- Refinement comparison for C2: the condition, following the spec's words
for when a presented token must be rejected, with the expiry boundary as
the code implements it: the hash matches no row, or the matched row is
revoked, or `now` is strictly after its expiry. -/
def RotateRejects (l : Ledger) (rawOldToken : String) (now : Int) : Prop :=
  match findByTokenHash l (sha256Hex rawOldToken) with
  | none => True
  | some r => r.revokedAt.isSome ∨ r.expiresAt < now

/-- **C2 counterexample**: the claim says a token whose `expires_at` equals
`now` is not usable, so this rotation would have to fail with
`InvalidRefreshToken`; on a ledger with one live row whose
`expires_at = 0`, rotating at `now = 0` succeeds instead. -/
theorem c2_counterexample :
    (RotateRefreshToken
      [{ id := "t1", userId := "u1", tokenHash := sha256Hex "old", expiresAt := 0,
         revokedAt := none, replacedBy := none, createdAt := 0 }]
      "old" "new" 100 "t2" 0).1 = Except.ok "u1" ∧
    ¬((RotateRefreshToken
      [{ id := "t1", userId := "u1", tokenHash := sha256Hex "old", expiresAt := 0,
         revokedAt := none, replacedBy := none, createdAt := 0 }]
      "old" "new" 100 "t2" 0).1 = Except.error LedgerError.invalidRefreshToken) := by
  refine ⟨rfl, ?_⟩
  intro h
  rw [show (RotateRefreshToken
      [{ id := "t1", userId := "u1", tokenHash := sha256Hex "old", expiresAt := 0,
         revokedAt := none, replacedBy := none, createdAt := 0 }]
      "old" "new" 100 "t2" 0).1 = Except.ok "u1" from rfl] at h
  exact Except.noConfusion h

/-- **C2 (amended)**: `RotateRefreshToken` fails with `InvalidRefreshToken`
exactly when the presented token's hash matches no stored row, or the
matched row is revoked, or the row's expiry is strictly before `now` (so a
token whose `expires_at` equals `now` is still usable: usable iff
`revoked_at IS NULL AND expires_at >= now`); on any failing outcome the
ledger is returned unchanged. -/
theorem c2_rotate_rejects_iff (l : Ledger) (rawOldToken rawNewToken : String)
    (newExpiresAt : Int) (newID : String) (now : Int) :
    ((RotateRefreshToken l rawOldToken rawNewToken newExpiresAt newID now).1
        = Except.error LedgerError.invalidRefreshToken ↔
      RotateRejects l rawOldToken now) ∧
    (∀ e, (RotateRefreshToken l rawOldToken rawNewToken newExpiresAt newID now).1
        = Except.error e →
      (RotateRefreshToken l rawOldToken rawNewToken newExpiresAt newID now).2 = l) := by
  unfold RotateRefreshToken RotateRejects
  cases hfind : findByTokenHash l (sha256Hex rawOldToken) with
  | none => simp
  | some r =>
      by_cases hbad : r.revokedAt.isSome ∨ r.expiresAt < now
      · simp [hbad]
      · by_cases hany :
          l.any (fun s => s.tokenHash == sha256Hex rawNewToken || s.id == newID) = true
        · simp [hbad, hany]
        · simp [hbad, hany]

/-- Witness for C2's amended theorem: on a ledger whose only matching row is
revoked, rotation reports `InvalidRefreshToken` and returns the ledger
unchanged. -/
theorem c2_rotate_rejects_iff_witness :
    (RotateRefreshToken
      [{ id := "t1", userId := "u1", tokenHash := sha256Hex "old", expiresAt := 100,
         revokedAt := some 5, replacedBy := none, createdAt := 0 }]
      "old" "new" 200 "t2" 10).2
      = [{ id := "t1", userId := "u1", tokenHash := sha256Hex "old", expiresAt := 100,
           revokedAt := some 5, replacedBy := none, createdAt := 0 }] :=
  (c2_rotate_rejects_iff
    [{ id := "t1", userId := "u1", tokenHash := sha256Hex "old", expiresAt := 100,
       revokedAt := some 5, replacedBy := none, createdAt := 0 }]
    "old" "new" 200 "t2" 10).2 LedgerError.invalidRefreshToken (by rfl)

theorem revokeRow_tokenHash (now : Int) (r : RefreshTokenRow) :
    (revokeRow now r).tokenHash = r.tokenHash := rfl

/-- **C9**: `RevokeRefreshToken` is idempotent: the row-level write is
`revoked_at := COALESCE(revoked_at, now)`, so a row whose `revoked_at` is
already set is left entirely unchanged (the earlier revocation time is
kept), and revoking the same raw token a second time, at any later time,
leaves the ledger exactly as after the first revocation. -/
theorem c9_revoke_idempotent (l : Ledger) (rawToken : String) (t1 t2 : Int) :
    RevokeRefreshToken (RevokeRefreshToken l rawToken t1) rawToken t2
      = RevokeRefreshToken l rawToken t1 ∧
    (∀ (r : RefreshTokenRow) (t : Int), r.revokedAt = some t → revokeRow t2 r = r) := by
  constructor
  · unfold RevokeRefreshToken
    rw [List.map_map]
    refine List.map_congr_left ?_
    intro r _
    by_cases hc : (r.tokenHash == sha256Hex rawToken) = true
    · simp [Function.comp, hc, revokeRow]
    · simp [Function.comp, hc]
  · intro r t hr
    unfold revokeRow
    rw [hr]
    show { r with revokedAt := some t } = r
    rw [← hr]

/-- Witness for C9: revoking an already-revoked row changes nothing. -/
theorem c9_revoke_idempotent_witness :
    revokeRow 99 { id := "t1", userId := "u1", tokenHash := sha256Hex "old",
                   expiresAt := 100, revokedAt := some 5, replacedBy := none,
                   createdAt := 0 }
      = { id := "t1", userId := "u1", tokenHash := sha256Hex "old",
          expiresAt := 100, revokedAt := some 5, replacedBy := none,
          createdAt := 0 } :=
  (c9_revoke_idempotent [] "old" 1 99).2 _ 5 rfl

/-- Outcomes of the logout operation at the service boundary. -/
inductive LogoutOutcome where
  | ok
  | invalidRefreshToken
deriving DecidableEq, Repr

/-- Modelled from the spec: the body of `Service.Logout` is not among the
sources (only its caller `Handler.Logout` and the repository's
`RevokeRefreshToken` are). Spec section 6 gives
`logout(rawRefreshToken) -> Ok | InvalidRefreshToken` (revokes without
rotation), section 7 collapses "not found, revoked, or expired" into
`InvalidRefreshToken`, and section 3 makes a token usable iff
`revoked_at IS NULL AND expires_at > now`. -/
def Logout (l : Ledger) (rawToken : String) (now : Int) : LogoutOutcome × Ledger :=
  match findByTokenHash l (sha256Hex rawToken) with
  | none => (LogoutOutcome.invalidRefreshToken, l)
  | some r =>
      if r.revokedAt.isSome ∨ r.expiresAt ≤ now then
        (LogoutOutcome.invalidRefreshToken, l)
      else (LogoutOutcome.ok, RevokeRefreshToken l rawToken now)

/-- **C7**: `Logout` returns either `Ok` or `InvalidRefreshToken`, and the
not-found case (the presented token's hash matches no stored row) yields
`InvalidRefreshToken`, not `Ok`. -/
theorem c7_logout_outcomes (l : Ledger) (rawToken : String) (now : Int) :
    ((Logout l rawToken now).1 = LogoutOutcome.ok ∨
      (Logout l rawToken now).1 = LogoutOutcome.invalidRefreshToken) ∧
    (findByTokenHash l (sha256Hex rawToken) = none →
      (Logout l rawToken now).1 = LogoutOutcome.invalidRefreshToken) := by
  constructor
  · cases h : (Logout l rawToken now).1 with
    | ok => exact Or.inl rfl
    | invalidRefreshToken => exact Or.inr rfl
  · intro hnone
    unfold Logout
    rw [hnone]

/-- Witness for C7: logging out with a token absent from the ledger is
rejected with `InvalidRefreshToken`. -/
theorem c7_logout_outcomes_witness :
    (Logout [] "ghost" 0).1 = LogoutOutcome.invalidRefreshToken :=
  (c7_logout_outcomes [] "ghost" 0).2 rfl

/-- One row of the `auth_login_attempts` relation
(migration `0007_create_auth_login_attempts.sql`). -/
structure LoginAttemptRow where
  username : String
  failedAttempts : Nat
  lockedUntil : Option Int
  updatedAt : Int
deriving DecidableEq, Repr

/-- The `auth_login_attempts` relation. -/
abbrev AttemptStore := List LoginAttemptRow

/-- `SELECT ... FROM auth_login_attempts WHERE username = $1`. -/
def findAttempt (st : AttemptStore) (username : String) : Option LoginAttemptRow :=
  st.find? (fun r => r.username == username)

/-- `Repository.GetLoginAttempt`: read the row for a username, defaulting to
zero failures and no lock when absent. -/
def GetLoginAttempt (st : AttemptStore) (username : String) : LoginAttemptRow :=
  match findAttempt st username with
  | none => { username := username, failedAttempts := 0, lockedUntil := none, updatedAt := 0 }
  | some r => r

/-- The `INSERT ... ON CONFLICT (username) DO UPDATE` statement: replace the
row for the username if present, insert it otherwise. -/
def upsertAttempt (st : AttemptStore) (row : LoginAttemptRow) : AttemptStore :=
  if st.any (fun r => r.username == row.username) then
    st.map (fun r => if r.username == row.username then row else r)
  else row :: st

/-- The write phase of `Repository.RegisterFailedAttempt`: increment the
failure count read under the row lock; if it reaches `maxAttempts`, persist
`locked_until = now + lockDuration` with the counter reset to zero and
return the deadline, else persist the incremented counter with no lock. -/
def registerFailedWrite (st : AttemptStore) (username : String) (maxAttempts : Nat)
    (lockDuration : Int) (now : Int) (failed : Nat) : Option Int × AttemptStore :=
  if failed + 1 ≥ maxAttempts then
    (some (now + lockDuration),
      upsertAttempt st
        { username := username, failedAttempts := 0,
          lockedUntil := some (now + lockDuration), updatedAt := now })
  else
    (none,
      upsertAttempt st
        { username := username, failedAttempts := failed + 1,
          lockedUntil := none, updatedAt := now })

/-- `Repository.RegisterFailedAttempt`: in one serialized transaction, read
the row (defaults zero/none when absent); if a lock deadline exists and
`now` is strictly before it, return it without writing; otherwise run the
increment-and-persist write phase. -/
def RegisterFailedAttempt (st : AttemptStore) (username : String) (maxAttempts : Nat)
    (lockDuration : Int) (now : Int) : Option Int × AttemptStore :=
  match findAttempt st username with
  | none => registerFailedWrite st username maxAttempts lockDuration now 0
  | some row =>
      match row.lockedUntil with
      | some u =>
          if now < u then (some u, st)
          else registerFailedWrite st username maxAttempts lockDuration now row.failedAttempts
      | none => registerFailedWrite st username maxAttempts lockDuration now row.failedAttempts

/-- `Repository.ResetLoginAttempt`: `DELETE FROM auth_login_attempts WHERE
username = $1`. -/
def ResetLoginAttempt (st : AttemptStore) (username : String) : AttemptStore :=
  st.filter (fun r => !(r.username == username))

/-- **C3**: `RegisterFailedAttempt` follows the reference algorithm: with an
active lock (`now < lockedUntil`) it returns the existing deadline and
leaves the store unchanged; otherwise it increments the stored failure count
(zero when no row exists), and if the incremented count reaches
`maxAttempts` it persists a zeroed counter with
`locked_until = now + lockDuration` and returns that deadline, else it
persists the incremented counter with no lock and returns no deadline. -/
theorem c3_register_failed_attempt (st : AttemptStore) (username : String)
    (maxAttempts : Nat) (lockDuration now : Int) (hmax : 1 ≤ maxAttempts) :
    (∀ u, (GetLoginAttempt st username).lockedUntil = some u → now < u →
        RegisterFailedAttempt st username maxAttempts lockDuration now = (some u, st)) ∧
    (((GetLoginAttempt st username).lockedUntil = none ∨
        (∃ u, (GetLoginAttempt st username).lockedUntil = some u ∧ u ≤ now)) →
      ((GetLoginAttempt st username).failedAttempts + 1 ≥ maxAttempts →
          RegisterFailedAttempt st username maxAttempts lockDuration now
            = (some (now + lockDuration),
               upsertAttempt st
                 { username := username, failedAttempts := 0,
                   lockedUntil := some (now + lockDuration), updatedAt := now })) ∧
      ((GetLoginAttempt st username).failedAttempts + 1 < maxAttempts →
          RegisterFailedAttempt st username maxAttempts lockDuration now
            = (none,
               upsertAttempt st
                 { username := username,
                   failedAttempts := (GetLoginAttempt st username).failedAttempts + 1,
                   lockedUntil := none, updatedAt := now }))) := by
  unfold RegisterFailedAttempt GetLoginAttempt
  cases hfind : findAttempt st username with
  | none =>
      refine ⟨?_, ?_⟩
      · intro u hu
        exact absurd hu (by simp)
      · intro _
        constructor
        · intro hge
          unfold registerFailedWrite
          rw [if_pos hge]
        · intro hlt
          unfold registerFailedWrite
          rw [if_neg (by omega)]
  | some row =>
      dsimp only
      cases hlock : row.lockedUntil with
      | some u =>
          dsimp only
          refine ⟨?_, ?_⟩
          · intro v hv hnow
            rw [Option.some_inj] at hv
            subst hv
            rw [if_pos hnow]
          · intro hnolock
            rcases hnolock with h1 | ⟨v, hv, hvle⟩
            · exact absurd h1 (by simp)
            · rw [Option.some_inj] at hv
              subst hv
              rw [if_neg (not_lt.mpr hvle)]
              constructor
              · intro hge
                unfold registerFailedWrite
                rw [if_pos hge]
              · intro hlt
                unfold registerFailedWrite
                rw [if_neg (by omega)]
      | none =>
          dsimp only
          refine ⟨?_, ?_⟩
          · intro u hu
            exact absurd hu (by simp)
          · intro _
            constructor
            · intro hge
              unfold registerFailedWrite
              rw [if_pos hge]
            · intro hlt
              unfold registerFailedWrite
              rw [if_neg (by omega)]

/-- Witness for C3: first failure with `maxAttempts = 1` locks immediately
for `lockDuration = 10` starting at `now = 0`. -/
theorem c3_register_failed_attempt_witness :
    RegisterFailedAttempt [] "alice" 1 10 0
      = (some 10, [{ username := "alice", failedAttempts := 0,
                     lockedUntil := some 10, updatedAt := 0 }]) := by
  have h := ((c3_register_failed_attempt [] "alice" 1 10 0 (by decide)).2
    (Or.inl rfl)).1 (by decide)
  simpa [upsertAttempt] using h

/-- One operation on the `auth_login_attempts` store: a failed-login
registration or a reset on successful login. -/
inductive AttemptOp where
  | register (username : String) (lockDuration : Int) (now : Int)
  | reset (username : String)

/-- Apply one operation with a fixed configured `maxAttempts`. -/
def applyAttemptOp (maxAttempts : Nat) (st : AttemptStore) : AttemptOp → AttemptStore
  | AttemptOp.register username lockDuration now =>
      (RegisterFailedAttempt st username maxAttempts lockDuration now).2
  | AttemptOp.reset username => ResetLoginAttempt st username

/-- Apply a sequence of operations. -/
def applyAttemptOps (maxAttempts : Nat) (st : AttemptStore) (ops : List AttemptOp) : AttemptStore :=
  ops.foldl (applyAttemptOp maxAttempts) st

/-- The implicit store invariant of C10: every persisted row has
`failed_attempts` in `[0, maxAttempts - 1]`, and a row with a lock deadline
has a zeroed counter. -/
def AttemptInv (maxAttempts : Nat) (st : AttemptStore) : Prop :=
  ∀ r ∈ st, r.failedAttempts + 1 ≤ maxAttempts ∧
    (r.lockedUntil.isSome → r.failedAttempts = 0)

theorem mem_upsertAttempt (st : AttemptStore) (row r : LoginAttemptRow)
    (h : r ∈ upsertAttempt st row) : r = row ∨ r ∈ st := by
  unfold upsertAttempt at h
  by_cases hany : st.any (fun s => s.username == row.username) = true
  · rw [if_pos hany] at h
    obtain ⟨s, hs, hfs⟩ := List.mem_map.mp h
    by_cases hc : (s.username == row.username) = true
    · rw [if_pos hc] at hfs
      exact Or.inl hfs.symm
    · rw [if_neg hc] at hfs
      exact Or.inr (hfs ▸ hs)
  · rw [if_neg hany] at h
    rcases List.mem_cons.mp h with h1 | h2
    · exact Or.inl h1
    · exact Or.inr h2

theorem attemptInv_registerWrite (maxAttempts : Nat) (hmax : 1 ≤ maxAttempts)
    (st : AttemptStore) (hinv : AttemptInv maxAttempts st)
    (username : String) (lockDuration now : Int) (failed : Nat) :
    AttemptInv maxAttempts
      (registerFailedWrite st username maxAttempts lockDuration now failed).2 := by
  unfold registerFailedWrite
  by_cases hge : failed + 1 ≥ maxAttempts
  · rw [if_pos hge]
    intro r hr
    rcases mem_upsertAttempt _ _ _ hr with h1 | h2
    · subst h1
      exact ⟨hmax, fun _ => rfl⟩
    · exact hinv r h2
  · rw [if_neg hge]
    intro r hr
    rcases mem_upsertAttempt _ _ _ hr with h1 | h2
    · subst h1
      refine ⟨?_, ?_⟩
      · show failed + 1 + 1 ≤ maxAttempts
        omega
      · intro hls
        simp at hls
    · exact hinv r h2

theorem attemptInv_register (maxAttempts : Nat) (hmax : 1 ≤ maxAttempts)
    (st : AttemptStore) (hinv : AttemptInv maxAttempts st)
    (username : String) (lockDuration now : Int) :
    AttemptInv maxAttempts
      (RegisterFailedAttempt st username maxAttempts lockDuration now).2 := by
  unfold RegisterFailedAttempt
  cases hfind : findAttempt st username with
  | none => exact attemptInv_registerWrite maxAttempts hmax st hinv username lockDuration now 0
  | some row =>
      dsimp only
      cases hlock : row.lockedUntil with
      | some u =>
          dsimp only
          by_cases hnow : now < u
          · rw [if_pos hnow]
            exact hinv
          · rw [if_neg hnow]
            exact attemptInv_registerWrite maxAttempts hmax st hinv username lockDuration now
              row.failedAttempts
      | none =>
          exact attemptInv_registerWrite maxAttempts hmax st hinv username lockDuration now
            row.failedAttempts

theorem attemptInv_reset (maxAttempts : Nat) (st : AttemptStore)
    (hinv : AttemptInv maxAttempts st) (username : String) :
    AttemptInv maxAttempts (ResetLoginAttempt st username) := by
  intro r hr
  exact hinv r (List.mem_of_mem_filter hr)

/-- **C10**: with a fixed `maxAttempts >= 1`, the invariant "every persisted
row has `failed_attempts` between `0` and `maxAttempts - 1`, and any row
with a non-null `locked_until` has `failed_attempts = 0`" is preserved by
every `RegisterFailedAttempt` and `ResetLoginAttempt` and therefore holds
after every interleaving of those operations starting from the empty
store. -/
theorem c10_attempt_store_invariant (maxAttempts : Nat) (hmax : 1 ≤ maxAttempts) :
    (∀ st, AttemptInv maxAttempts st → ∀ ops,
      AttemptInv maxAttempts (applyAttemptOps maxAttempts st ops)) ∧
    (∀ ops, AttemptInv maxAttempts (applyAttemptOps maxAttempts [] ops)) := by
  have hstep : ∀ st, AttemptInv maxAttempts st → ∀ op,
      AttemptInv maxAttempts (applyAttemptOp maxAttempts st op) := by
    intro st hinv op
    cases op with
    | register username lockDuration now =>
        exact attemptInv_register maxAttempts hmax st hinv username lockDuration now
    | reset username => exact attemptInv_reset maxAttempts st hinv username
  have hall : ∀ ops st, AttemptInv maxAttempts st →
      AttemptInv maxAttempts (applyAttemptOps maxAttempts st ops) := by
    intro ops
    induction ops with
    | nil => intro st h; exact h
    | cons op rest ih =>
        intro st h
        exact ih _ (hstep st h op)
  refine ⟨fun st h ops => hall ops st h, fun ops => hall ops [] ?_⟩
  intro r hr
  cases hr

/-- Witness for C10: two failures for one username under `maxAttempts = 2`
leave a store satisfying the invariant. -/
theorem c10_attempt_store_invariant_witness :
    AttemptInv 2 (applyAttemptOps 2 []
      [AttemptOp.register "alice" 10 0, AttemptOp.register "alice" 10 1]) :=
  (c10_attempt_store_invariant 2 (by decide)).2
    [AttemptOp.register "alice" 10 0, AttemptOp.register "alice" 10 1]

/-- One row of the `auth_login_ip_limits` relation
(migration `0011_create_auth_login_ip_limits.sql`). -/
structure IPLimitRow where
  ip : String
  windowStartedAt : Int
  hits : Nat
  updatedAt : Int
deriving DecidableEq, Repr

/-- The `auth_login_ip_limits` relation. -/
abbrev IPStore := List IPLimitRow

/-- `SELECT ... FROM auth_login_ip_limits WHERE ip = $1`. -/
def findIPLimit (st : IPStore) (ip : String) : Option IPLimitRow :=
  st.find? (fun r => r.ip == ip)

/-- `INSERT ... ON CONFLICT (ip) DO UPDATE`: replace the row for the IP if
present, insert it otherwise. -/
def upsertIPLimit (st : IPStore) (row : IPLimitRow) : IPStore :=
  if st.any (fun r => r.ip == row.ip) then
    st.map (fun r => if r.ip == row.ip then row else r)
  else row :: st

/-- The row computed by the CTE upsert inside `Repository.AllowLoginIP`: a
fresh `(window_started_at = now, hits = 1)` when no row exists or the stored
window start is at or before `now - window` (the `$3` threshold), otherwise
the stored window start with `hits + 1`. -/
def ipLimitUpsertRow (st : IPStore) (ip : String) (window now : Int) : IPLimitRow :=
  match findIPLimit st ip with
  | none => { ip := ip, windowStartedAt := now, hits := 1, updatedAt := now }
  | some r =>
      if r.windowStartedAt ≤ now - window then
        { ip := ip, windowStartedAt := now, hits := 1, updatedAt := now }
      else
        { ip := ip, windowStartedAt := r.windowStartedAt, hits := r.hits + 1,
          updatedAt := now }

/-- `Repository.AllowLoginIP`: run the upsert, allow iff the resulting hit
count is at most `maxHits`, otherwise deny with
`retryAfter = window_started_at + window - now` floored at one second. -/
def AllowLoginIP (st : IPStore) (ip : String) (maxHits : Nat) (window now : Int) :
    (Bool × Int) × IPStore :=
  if (ipLimitUpsertRow st ip window now).hits ≤ maxHits then
    ((true, 0), upsertIPLimit st (ipLimitUpsertRow st ip window now))
  else
    ((false, max ((ipLimitUpsertRow st ip window now).windowStartedAt + window - now) 1),
      upsertIPLimit st (ipLimitUpsertRow st ip window now))

/-- Repeated `AllowLoginIP` calls for one IP at the given times. -/
def allowCalls (st : IPStore) (ip : String) (maxHits : Nat) (window : Int)
    (ts : List Int) : IPStore :=
  ts.foldl (fun s t => (AllowLoginIP s ip maxHits window t).2) st

theorem findIPLimit_upsert_self (st : IPStore) (row : IPLimitRow) :
    findIPLimit (upsertIPLimit st row) row.ip = some row := by
  unfold upsertIPLimit
  by_cases hany : st.any (fun r => r.ip == row.ip) = true
  · rw [if_pos hany]
    have hcomp : ((fun r : IPLimitRow => r.ip == row.ip) ∘
        (fun r : IPLimitRow => if r.ip == row.ip then row else r))
          = fun r : IPLimitRow => r.ip == row.ip := by
      funext s
      by_cases hc : (s.ip == row.ip) = true <;> simp [Function.comp, hc]
    obtain ⟨s0, hs0, hps0⟩ := List.any_eq_true.mp hany
    have hsome : (st.find? (fun r => r.ip == row.ip)).isSome :=
      List.find?_isSome.mpr ⟨s0, hs0, hps0⟩
    obtain ⟨s1, hs1⟩ := Option.isSome_iff_exists.mp hsome
    have hps1 := List.find?_some hs1
    unfold findIPLimit
    rw [List.find?_map, hcomp, hs1]
    show some (if s1.ip == row.ip then row else s1) = some row
    rw [if_pos hps1]
  · rw [if_neg hany]
    unfold findIPLimit
    simp [List.find?_cons]

theorem AllowLoginIP_in_window_post (st : IPStore) (ip : String) (maxHits : Nat)
    (window t t0 : Int) (k : Nat) (u : Int)
    (hrow : findIPLimit st ip
      = some { ip := ip, windowStartedAt := t0, hits := k, updatedAt := u })
    (hlt : t < t0 + window) :
    (AllowLoginIP st ip maxHits window t).2
      = upsertIPLimit st { ip := ip, windowStartedAt := t0, hits := k + 1,
                           updatedAt := t } := by
  have hrowEq : ipLimitUpsertRow st ip window t
      = { ip := ip, windowStartedAt := t0, hits := k + 1, updatedAt := t } := by
    unfold ipLimitUpsertRow
    rw [hrow]
    dsimp only
    rw [if_neg (by omega)]
  unfold AllowLoginIP
  rw [hrowEq]
  by_cases hcap : k + 1 ≤ maxHits
  · rw [if_pos hcap]
  · rw [if_neg hcap]

theorem AllowLoginIP_in_window_denied (st : IPStore) (ip : String) (maxHits : Nat)
    (window t t0 : Int) (k : Nat) (u : Int)
    (hrow : findIPLimit st ip
      = some { ip := ip, windowStartedAt := t0, hits := k, updatedAt := u })
    (hlt : t < t0 + window) (hk : maxHits < k + 1) :
    (AllowLoginIP st ip maxHits window t).1
      = (false, max (t0 + window - t) 1) := by
  have hrowEq : ipLimitUpsertRow st ip window t
      = { ip := ip, windowStartedAt := t0, hits := k + 1, updatedAt := t } := by
    unfold ipLimitUpsertRow
    rw [hrow]
    dsimp only
    rw [if_neg (by omega)]
  unfold AllowLoginIP
  rw [hrowEq]
  rw [if_neg (show ¬(k + 1 ≤ maxHits) by omega)]

theorem allowCalls_accumulate (ip : String) (maxHits : Nat) (window t0 : Int) :
    ∀ (ts : List Int), (∀ t ∈ ts, t < t0 + window) →
    ∀ (st : IPStore) (k : Nat) (u : Int),
      findIPLimit st ip
        = some { ip := ip, windowStartedAt := t0, hits := k, updatedAt := u } →
      ∃ v, findIPLimit (allowCalls st ip maxHits window ts) ip
        = some { ip := ip, windowStartedAt := t0, hits := k + ts.length,
                 updatedAt := v } := by
  intro ts
  induction ts with
  | nil =>
      intro _ st k u hrow
      exact ⟨u, by simpa using hrow⟩
  | cons t rest ih =>
      intro hts st k u hrow
      have hlt : t < t0 + window := hts t (List.mem_cons_self t rest)
      have hstep : findIPLimit (AllowLoginIP st ip maxHits window t).2 ip
          = some { ip := ip, windowStartedAt := t0, hits := k + 1, updatedAt := t } := by
        rw [AllowLoginIP_in_window_post st ip maxHits window t t0 k u hrow hlt]
        exact findIPLimit_upsert_self st
          { ip := ip, windowStartedAt := t0, hits := k + 1, updatedAt := t }
      obtain ⟨v, hv⟩ := ih (fun s hs => hts s (List.mem_cons_of_mem _ hs))
        (AllowLoginIP st ip maxHits window t).2 (k + 1) t hstep
      refine ⟨v, ?_⟩
      have hfold : allowCalls st ip maxHits window (t :: rest)
          = allowCalls (AllowLoginIP st ip maxHits window t).2 ip maxHits window rest := rfl
      have harith : k + (t :: rest).length = k + 1 + rest.length := by
        simp [List.length_cons]
        omega
      rw [hfold, harith, hv]

/-- **C4**: one `AllowLoginIP` check behaves as a fixed window: with no row,
or a stored window start at least `window` old, the hit count resets to 1
and the window restarts at `now` (allowed, since `maxHits >= 1`); otherwise
hits increment by one and the request is allowed iff the resulting count is
within `maxHits`, a denial reporting
`retryAfter = windowStartedAt + window - now` floored at one second, always
positive. Consequently, starting from no entry, after an attempt at `now`
and `maxHits - 1` further attempts inside the window, the `(maxHits+1)`-th
attempt inside the window is denied with positive `retryAfter`; and once
the stored window start is `window` old the next attempt is allowed with a
fresh window (the first disjunct of the first part). -/
theorem c4_allow_login_ip_fixed_window (st : IPStore) (ip : String) (maxHits : Nat)
    (window now : Int) (hmax : 1 ≤ maxHits) :
    ((findIPLimit st ip = none ∨
        (∃ r, findIPLimit st ip = some r ∧ r.windowStartedAt ≤ now - window)) →
      AllowLoginIP st ip maxHits window now
        = ((true, 0), upsertIPLimit st
            { ip := ip, windowStartedAt := now, hits := 1, updatedAt := now })) ∧
    (∀ r, findIPLimit st ip = some r → now - window < r.windowStartedAt →
      (r.hits + 1 ≤ maxHits →
          AllowLoginIP st ip maxHits window now
            = ((true, 0), upsertIPLimit st
                { ip := ip, windowStartedAt := r.windowStartedAt,
                  hits := r.hits + 1, updatedAt := now })) ∧
      (maxHits < r.hits + 1 →
          AllowLoginIP st ip maxHits window now
            = ((false, max (r.windowStartedAt + window - now) 1),
               upsertIPLimit st
                 { ip := ip, windowStartedAt := r.windowStartedAt,
                   hits := r.hits + 1, updatedAt := now }) ∧
          0 < (AllowLoginIP st ip maxHits window now).1.2)) ∧
    (findIPLimit st ip = none →
      ∀ ts : List Int, ts.length + 1 = maxHits → (∀ t ∈ ts, t < now + window) →
      ∀ tNext, tNext < now + window →
        (AllowLoginIP (allowCalls (AllowLoginIP st ip maxHits window now).2
            ip maxHits window ts) ip maxHits window tNext).1
          = (false, max (now + window - tNext) 1) ∧
        0 < (AllowLoginIP (allowCalls (AllowLoginIP st ip maxHits window now).2
            ip maxHits window ts) ip maxHits window tNext).1.2) := by
  refine ⟨?_, ?_, ?_⟩
  · intro hfresh
    have hrowEq : ipLimitUpsertRow st ip window now
        = { ip := ip, windowStartedAt := now, hits := 1, updatedAt := now } := by
      unfold ipLimitUpsertRow
      rcases hfresh with hnone | ⟨r, hr, hstale⟩
      · rw [hnone]
      · rw [hr]
        dsimp only
        rw [if_pos hstale]
    unfold AllowLoginIP
    rw [hrowEq, if_pos (show (1 : Nat) ≤ maxHits from hmax)]
  · intro r hr hwin
    have hrowEq : ipLimitUpsertRow st ip window now
        = { ip := ip, windowStartedAt := r.windowStartedAt, hits := r.hits + 1,
            updatedAt := now } := by
      unfold ipLimitUpsertRow
      rw [hr]
      dsimp only
      rw [if_neg (by omega)]
    constructor
    · intro hcap
      unfold AllowLoginIP
      rw [hrowEq, if_pos (show r.hits + 1 ≤ maxHits from hcap)]
    · intro hover
      have heq : AllowLoginIP st ip maxHits window now
          = ((false, max (r.windowStartedAt + window - now) 1),
             upsertIPLimit st
               { ip := ip, windowStartedAt := r.windowStartedAt,
                 hits := r.hits + 1, updatedAt := now }) := by
        unfold AllowLoginIP
        rw [hrowEq, if_neg (show ¬(r.hits + 1 ≤ maxHits) by omega)]
      refine ⟨heq, ?_⟩
      rw [heq]
      exact lt_of_lt_of_le one_pos (le_max_right _ _)
  · intro hnone ts hlen hts tNext htNext
    have hfirstRow : ipLimitUpsertRow st ip window now
        = { ip := ip, windowStartedAt := now, hits := 1, updatedAt := now } := by
      unfold ipLimitUpsertRow
      rw [hnone]
    have hpost1 : (AllowLoginIP st ip maxHits window now).2
        = upsertIPLimit st { ip := ip, windowStartedAt := now, hits := 1,
                             updatedAt := now } := by
      unfold AllowLoginIP
      rw [hfirstRow]
      by_cases hcap : (1 : Nat) ≤ maxHits
      · rw [if_pos (show (1 : Nat) ≤ maxHits from hcap)]
      · rw [if_neg (show ¬((1 : Nat) ≤ maxHits) from hcap)]
    have hfind1 : findIPLimit (AllowLoginIP st ip maxHits window now).2 ip
        = some { ip := ip, windowStartedAt := now, hits := 1, updatedAt := now } := by
      rw [hpost1]
      exact findIPLimit_upsert_self st
        { ip := ip, windowStartedAt := now, hits := 1, updatedAt := now }
    obtain ⟨v, hv⟩ := allowCalls_accumulate ip maxHits window now ts hts
      (AllowLoginIP st ip maxHits window now).2 1 now hfind1
    rw [show 1 + ts.length = maxHits by omega] at hv
    have hfin := AllowLoginIP_in_window_denied
      (allowCalls (AllowLoginIP st ip maxHits window now).2 ip maxHits window ts)
      ip maxHits window tNext now maxHits v hv htNext (by omega)
    refine ⟨hfin, ?_⟩
    rw [hfin]
    exact lt_of_lt_of_le one_pos (le_max_right _ _)

/-- Witness for C4: `maxHits = 2`, `window = 10`; attempts at times 0 and 1
fill the window, and the third attempt at time 2 is denied with a positive
retry hint. -/
theorem c4_allow_login_ip_fixed_window_witness :
    (AllowLoginIP (allowCalls (AllowLoginIP [] "203.0.113.9" 2 10 0).2
        "203.0.113.9" 2 10 [1]) "203.0.113.9" 2 10 2).1
      = (false, max (0 + 10 - 2) 1) ∧
    0 < (AllowLoginIP (allowCalls (AllowLoginIP [] "203.0.113.9" 2 10 0).2
        "203.0.113.9" 2 10 [1]) "203.0.113.9" 2 10 2).1.2 := by
  have h := (c4_allow_login_ip_fixed_window [] "203.0.113.9" 2 10 0 (by decide)).2.2
    rfl [1] rfl (by intro t ht; rw [List.mem_singleton] at ht; subst ht; norm_num)
    2 (by norm_num)
  exact h

/-- The claim set of an access token built by `Service.issueAccessToken`:
subject, issued-at, expiry and the `"access"` type tag. -/
structure AccessClaims where
  sub : String
  iat : Int
  exp : Int
  typ : String
deriving DecidableEq, Repr

/-- A symbolic HMAC: the MAC value determines the secret, the algorithm and
the signed claims, so two MACs agree exactly when all three agree. -/
structure JWTMac where
  secret : String
  alg : String
  claims : AccessClaims
deriving DecidableEq, Repr

/-- A serialized signed token: header algorithm, payload claims,
signature. -/
structure SignedToken where
  alg : String
  claims : AccessClaims
  mac : JWTMac
deriving DecidableEq, Repr

/-- `jwt.NewWithClaims(jwt.SigningMethodHS256, claims)` followed by
`SignedString(secret)`. -/
def signHS256 (jwtSecret : String) (claims : AccessClaims) : SignedToken :=
  { alg := "HS256", claims := claims,
    mac := { secret := jwtSecret, alg := "HS256", claims := claims } }

/-- `Service.issueAccessToken`: claims `sub = userID`, `iat = now`,
`exp = now + accessTTL`, `typ = "access"`, HS256-signed; returned together
with `expiresIn = accessTTL` (in seconds). -/
def issueAccessToken (jwtSecret : String) (accessTTL : Int) (userID : String)
    (now : Int) : SignedToken × Int :=
  (signHS256 jwtSecret
    { sub := userID, iat := now, exp := now + accessTTL, typ := "access" },
   accessTTL)

/-- `auth.Middleware` verification: `jwt.ParseWithClaims` with
`WithValidMethods([HS256])` checks the header algorithm, recomputes the MAC
with the configured secret, and validates the registered claims (for the
claims issued here only `exp`: valid iff `now < exp`); the middleware then
requires `typ == "access"`. Returns the subject on success. -/
def verifyAccess (jwtSecret : String) (tok : SignedToken) (now : Int) : Option String :=
  if tok.alg = "HS256" ∧
     tok.mac = { secret := jwtSecret, alg := tok.alg, claims := tok.claims } ∧
     now < tok.claims.exp ∧ tok.claims.typ = "access" then
    some tok.claims.sub
  else none

/-- **C5**: issuing an access token for a user and verifying it with the
same secret yields back the same user id at any time strictly before
issuance time plus the reported `expiresIn`; from the moment `expiresIn`
has elapsed, verification of that token fails. -/
theorem c5_access_token_round_trip (jwtSecret userID : String)
    (accessTTL now t : Int) :
    (t < now + (issueAccessToken jwtSecret accessTTL userID now).2 →
      verifyAccess jwtSecret (issueAccessToken jwtSecret accessTTL userID now).1 t
        = some userID) ∧
    (now + (issueAccessToken jwtSecret accessTTL userID now).2 ≤ t →
      verifyAccess jwtSecret (issueAccessToken jwtSecret accessTTL userID now).1 t
        = none) := by
  constructor
  · intro ht
    unfold verifyAccess issueAccessToken signHS256
    rw [if_pos ⟨rfl, rfl, ht, rfl⟩]
  · intro ht
    unfold verifyAccess issueAccessToken signHS256
    rw [if_neg ?hneg]
    case hneg =>
      intro hcond
      exact absurd hcond.2.2.1 (not_lt.mpr ht)

/-- Witness for C5: a token with TTL 900 issued at time 1000 verifies at
time 1500 and is rejected at time 1900. -/
theorem c5_access_token_round_trip_witness :
    verifyAccess "k" (issueAccessToken "k" 900 "u7" 1000).1 1500 = some "u7" ∧
    verifyAccess "k" (issueAccessToken "k" 900 "u7" 1000).1 1900 = none :=
  ⟨(c5_access_token_round_trip "k" "u7" 900 1000 1500).1 (by decide),
   (c5_access_token_round_trip "k" "u7" 900 1000 1900).2 (by decide)⟩

/-- One row of the `users` relation. -/
structure UserRow where
  id : String
  username : String
  passwordHash : String
  createdAt : Int
  updatedAt : Int
deriving DecidableEq, Repr

/-- The `users` relation. -/
abbrev UserStore := List UserRow

/-- `SELECT ... FROM users WHERE username = $1`. -/
def GetByUsername (users : UserStore) (username : String) : Option UserRow :=
  users.find? (fun r => r.username == username)

/-- Accumulator of `ORDER BY created_at ASC LIMIT 1` over the rows (ties
broken by position). -/
def earliestAcc (acc : Option UserRow) (r : UserRow) : Option UserRow :=
  match acc with
  | none => some r
  | some b => if r.createdAt < b.createdAt then some r else some b

/-- `SELECT id FROM users ORDER BY created_at ASC LIMIT 1`. -/
def earliestUser (users : UserStore) : Option UserRow :=
  users.foldl earliestAcc none

/-- `Repository.UpsertSingleUser`: hash the password; in one transaction,
insert a fresh row when the table is empty, otherwise update the
earliest-created row's username, password hash and `updated_at`; then
`DELETE FROM users WHERE id <> $1` keeps only the chosen id. -/
def UpsertSingleUser (users : UserStore) (username plainPassword : String)
    (freshID : String) (now : Int) : UserStore :=
  match earliestUser users with
  | none =>
      [{ id := freshID, username := username, passwordHash := bcryptHash plainPassword,
         createdAt := now, updatedAt := now }]
  | some ex =>
      (users.map (fun r =>
        if r.id == ex.id then
          { r with username := username, passwordHash := bcryptHash plainPassword,
                   updatedAt := now }
        else r)).filter (fun r => r.id == ex.id)

theorem earliestAcc_foldl_mem (l : List UserRow) :
    ∀ (b c : UserRow), l.foldl earliestAcc (some b) = some c → c = b ∨ c ∈ l := by
  induction l with
  | nil =>
      intro b c h
      simp only [List.foldl_nil, Option.some_inj] at h
      exact Or.inl h.symm
  | cons x rest ih =>
      intro b c h
      rw [List.foldl_cons] at h
      have hred : earliestAcc (some b) x
          = if x.createdAt < b.createdAt then some x else some b := rfl
      rw [hred] at h
      by_cases hx : x.createdAt < b.createdAt
      · rw [if_pos hx] at h
        rcases ih x c h with h1 | h2
        · exact Or.inr (h1 ▸ List.mem_cons_self x rest)
        · exact Or.inr (List.mem_cons_of_mem x h2)
      · rw [if_neg hx] at h
        rcases ih b c h with h1 | h2
        · exact Or.inl h1
        · exact Or.inr (List.mem_cons_of_mem x h2)

theorem earliestUser_mem (users : UserStore) (ex : UserRow)
    (h : earliestUser users = some ex) : ex ∈ users := by
  cases users with
  | nil => cases h
  | cons x rest =>
      have h2 : rest.foldl earliestAcc (some x) = some ex := h
      rcases earliestAcc_foldl_mem rest x ex h2 with h1 | h1
      · exact h1 ▸ List.mem_cons_self x rest
      · exact List.mem_cons_of_mem x h1

theorem filter_id_eq_singleton (users : UserStore) (ex : UserRow)
    (hmem : ex ∈ users) (hnodup : (users.map (fun r => r.id)).Nodup) :
    users.filter (fun r => r.id == ex.id) = [ex] := by
  induction users with
  | nil => cases hmem
  | cons u rest ih =>
      rw [List.map_cons, List.nodup_cons] at hnodup
      rcases List.mem_cons.mp hmem with heq | hmem2
      · subst heq
        have hnil : rest.filter (fun r => r.id == ex.id) = [] := by
          rw [List.filter_eq_nil_iff]
          intro r hr
          simp only [beq_iff_eq]
          intro he
          exact hnodup.1 (he ▸ List.mem_map_of_mem (fun s => s.id) hr)
        rw [List.filter_cons, if_pos (by simp), hnil]
      · have hne : ¬(u.id == ex.id) = true := by
          simp only [beq_iff_eq]
          intro he
          exact hnodup.1 (he ▸ List.mem_map_of_mem (fun s => s.id) hmem2)
        rw [List.filter_cons, if_neg hne, ih hmem2 hnodup.2]

theorem UpsertSingleUser_single (users : UserStore)
    (username plainPassword freshID : String) (now : Int)
    (hnodup : (users.map (fun r => r.id)).Nodup) :
    ∃ i c, UpsertSingleUser users username plainPassword freshID now
      = [{ id := i, username := username, passwordHash := bcryptHash plainPassword,
           createdAt := c, updatedAt := now }] := by
  unfold UpsertSingleUser
  cases hearliest : earliestUser users with
  | none => exact ⟨freshID, now, rfl⟩
  | some ex =>
      dsimp only
      have hmem := earliestUser_mem users ex hearliest
      have hpres : ∀ r : UserRow,
          ((if r.id == ex.id then
              { r with username := username, passwordHash := bcryptHash plainPassword,
                       updatedAt := now }
            else r).id == ex.id) = (r.id == ex.id) := by
        intro r
        by_cases hc : (r.id == ex.id) = true <;> simp [hc]
      have hfm : (users.map (fun r =>
          if r.id == ex.id then
            { r with username := username, passwordHash := bcryptHash plainPassword,
                     updatedAt := now }
          else r)).filter (fun r => r.id == ex.id)
          = (users.filter (fun r => r.id == ex.id)).map (fun r =>
              if r.id == ex.id then
                { r with username := username, passwordHash := bcryptHash plainPassword,
                         updatedAt := now }
              else r) := by
        have hcomp : ((fun r : UserRow => r.id == ex.id) ∘ (fun r : UserRow =>
            if r.id == ex.id then
              { r with username := username, passwordHash := bcryptHash plainPassword,
                       updatedAt := now }
            else r)) = fun r : UserRow => r.id == ex.id := by
          funext r
          exact hpres r
        rw [List.filter_map, hcomp]
      rw [hfm, filter_id_eq_singleton users ex hmem hnodup]
      refine ⟨ex.id, ex.createdAt, ?_⟩
      simp

/-- **C6**: with distinct row ids (the primary key), every
`UpsertSingleUser` leaves exactly one user row, carrying the given username
and password hash; in particular bootstrapping twice with different
usernames leaves exactly one row carrying the second username and its
hash. -/
theorem c6_upsert_sole_user (users : UserStore) (u1 p1 id1 : String) (t1 : Int)
    (u2 p2 id2 : String) (t2 : Int)
    (hnodup : (users.map (fun r => r.id)).Nodup) :
    (∃ i c, UpsertSingleUser users u1 p1 id1 t1
      = [{ id := i, username := u1, passwordHash := bcryptHash p1,
           createdAt := c, updatedAt := t1 }]) ∧
    (∃ i c, UpsertSingleUser (UpsertSingleUser users u1 p1 id1 t1) u2 p2 id2 t2
      = [{ id := i, username := u2, passwordHash := bcryptHash p2,
           createdAt := c, updatedAt := t2 }]) := by
  obtain ⟨i1, c1, h1⟩ := UpsertSingleUser_single users u1 p1 id1 t1 hnodup
  refine ⟨⟨i1, c1, h1⟩, ?_⟩
  rw [h1]
  exact UpsertSingleUser_single _ u2 p2 id2 t2 (by simp)

/-- Witness for C6: bootstrapping `alice` then `bob` on an empty store
leaves exactly one row carrying `bob` and its hash. -/
theorem c6_upsert_sole_user_witness :
    ∃ i c, UpsertSingleUser (UpsertSingleUser [] "alice" "pw1" "ua" 0) "bob" "pw2" "ub" 5
      = [{ id := i, username := "bob", passwordHash := bcryptHash "pw2",
           createdAt := c, updatedAt := 5 }] :=
  (c6_upsert_sole_user [] "alice" "pw1" "ua" 0 "bob" "pw2" "ub" 5 (by simp)).2

/-- One character of Go's `strings.ToLower`, for the ASCII range. -/
def toLowerChar (c : Char) : Char :=
  if 65 ≤ c.toNat ∧ c.toNat ≤ 90 then Char.ofNat (c.toNat + 32) else c

/-- Go's `strings.ToLower` (ASCII), character-wise. -/
def ToLower (s : String) : String := String.mk (s.data.map toLowerChar)

/-- ASCII whitespace for Go's `strings.TrimSpace`. -/
def isSpaceChar (c : Char) : Bool :=
  c = ' ' ∨ c = '\t' ∨ c = '\n' ∨ c = '\r'

/-- Drop leading whitespace characters. -/
def dropLeadingSpaces : List Char → List Char
  | [] => []
  | c :: cs => if isSpaceChar c then dropLeadingSpaces cs else c :: cs

/-- Go's `strings.TrimSpace` (ASCII): drop leading and trailing
whitespace. -/
def TrimSpace (s : String) : String :=
  String.mk ((dropLeadingSpaces (dropLeadingSpaces s.data).reverse).reverse)

/-- The outcome of `Service.Login` at the service boundary; the issued token
pair on success is represented by the authenticated user's id (token
issuance itself is `issueAccessToken` / `CreateRefreshToken`). -/
inductive LoginOutcome where
  | invalidCredentials
  | locked (lockedUntil : Int)
  | authenticated (userID : String)
deriving DecidableEq, Repr

/-- The shared failure tail of `Service.Login`: register a failed attempt
for the (normalized) username; answer `ErrLoginLocked` when the
registration returns a lock deadline and `ErrInvalidCredentials`
otherwise. -/
def loginFail (st : AttemptStore) (uname : String) (maxAttempts : Nat)
    (lockDuration now : Int) : LoginOutcome × AttemptStore :=
  match RegisterFailedAttempt st uname maxAttempts lockDuration now with
  | (some u, st2) => (LoginOutcome.locked u, st2)
  | (none, st2) => (LoginOutcome.invalidCredentials, st2)

/-- The credential phase of `Service.Login`: unknown username and password
mismatch both fall into `loginFail`; a match resets the failure row and
authenticates. -/
def loginCheckUser (users : UserStore) (st : AttemptStore) (uname pwd : String)
    (maxAttempts : Nat) (lockDuration now : Int) : LoginOutcome × AttemptStore :=
  match GetByUsername users uname with
  | none => loginFail st uname maxAttempts lockDuration now
  | some user =>
      if bcryptCheck user.passwordHash pwd then
        (LoginOutcome.authenticated user.id, ResetLoginAttempt st uname)
      else loginFail st uname maxAttempts lockDuration now

/-- `Service.Login` (the auth service orchestration): lower-case and trim
the username, trim the password, reject if either is empty; reject with the
lock deadline while the username is locked; otherwise verify credentials
via `loginCheckUser`. -/
def Login (users : UserStore) (st : AttemptStore) (username password : String)
    (maxAttempts : Nat) (lockDuration now : Int) : LoginOutcome × AttemptStore :=
  if (TrimSpace (ToLower username)) = "" ∨ (TrimSpace password) = "" then
    (LoginOutcome.invalidCredentials, st)
  else
    match (GetLoginAttempt st (TrimSpace (ToLower username))).lockedUntil with
    | some u =>
        if now < u then (LoginOutcome.locked u, st)
        else loginCheckUser users st (TrimSpace (ToLower username)) (TrimSpace password)
          maxAttempts lockDuration now
    | none => loginCheckUser users st (TrimSpace (ToLower username)) (TrimSpace password)
        maxAttempts lockDuration now

/-- **C8**: two failing logins that are not empty-input rejections and whose
username is not currently locked - one against a store without the user,
one against a store whose user's password does not match - produce exactly
the same observable outcome and attempt-store: both run `loginFail`, so the
error kind is `InvalidCredentials` (or `Locked` when this failure triggers
the lock) and a failure is registered against the normalized username; the
caller cannot tell which sub-condition occurred. -/
theorem c8_login_failures_indistinguishable (users1 users2 : UserStore)
    (st : AttemptStore) (username password : String) (maxAttempts : Nat)
    (lockDuration now : Int)
    (hu : (TrimSpace (ToLower username)) ≠ "") (hp : (TrimSpace password) ≠ "")
    (hnotlocked : ∀ u,
      (GetLoginAttempt st (TrimSpace (ToLower username))).lockedUntil = some u → u ≤ now)
    (h1 : GetByUsername users1 (TrimSpace (ToLower username)) = none)
    (h2 : ∃ user, GetByUsername users2 (TrimSpace (ToLower username)) = some user ∧
      bcryptCheck user.passwordHash (TrimSpace password) = false) :
    Login users1 st username password maxAttempts lockDuration now
      = Login users2 st username password maxAttempts lockDuration now ∧
    Login users1 st username password maxAttempts lockDuration now
      = loginFail st (TrimSpace (ToLower username)) maxAttempts lockDuration now := by
  have hgate : ∀ users, Login users st username password maxAttempts lockDuration now
      = loginCheckUser users st (TrimSpace (ToLower username)) (TrimSpace password)
          maxAttempts lockDuration now := by
    intro users
    unfold Login
    rw [if_neg (fun hcases => hcases.elim hu hp)]
    cases hlock : (GetLoginAttempt st (TrimSpace (ToLower username))).lockedUntil with
    | some u =>
        dsimp only
        rw [if_neg (not_lt.mpr (hnotlocked u hlock))]
    | none => rfl
  have hleft : Login users1 st username password maxAttempts lockDuration now
      = loginFail st (TrimSpace (ToLower username)) maxAttempts lockDuration now := by
    rw [hgate users1]
    unfold loginCheckUser
    rw [h1]
  have hright : Login users2 st username password maxAttempts lockDuration now
      = loginFail st (TrimSpace (ToLower username)) maxAttempts lockDuration now := by
    obtain ⟨user, huser, hpw⟩ := h2
    rw [hgate users2]
    unfold loginCheckUser
    rw [huser]
    dsimp only
    rw [if_neg (by rw [hpw]; exact Bool.false_ne_true)]
  exact ⟨hleft.trans hright.symm, hleft⟩

/-- Witness for C8: unknown user versus wrong password for an existing user
produce identical results on concrete stores. -/
theorem c8_login_failures_indistinguishable_witness :
    Login [] [] "alice" "wrongpassword" 3 600 0
      = Login [{ id := "u1", username := "alice",
                 passwordHash := bcryptHash "correctpw",
                 createdAt := 0, updatedAt := 0 }] [] "alice" "wrongpassword" 3 600 0 :=
  (c8_login_failures_indistinguishable []
    [{ id := "u1", username := "alice", passwordHash := bcryptHash "correctpw",
       createdAt := 0, updatedAt := 0 }]
    [] "alice" "wrongpassword" 3 600 0 (by decide) (by decide)
    (by intro u h; exact absurd h (by simp [GetLoginAttempt, findAttempt]))
    rfl ⟨_, rfl, by decide⟩).1
